import Mathlib

/-!
Shallow embedding of the go-kit priority-collection engine, delaying executor
and worker pool (pkg/util and pkg/util/collection), together with proofs about
the claims of the specification.

Conventions:
* Go panics are modelled by `Except GoPanic`; functions that cannot panic are
  embedded as total functions.
* The `priorityHelper` backing array is modelled as a `List` of entries.  Each
  Go heap entry is a pointer `*priorityHelperEntry`; inside a bare
  `priorityQueue` those pointers are referenced only by the backing array
  itself, so the queue is modelled directly as a list of entry records.  The
  `priorityMap` aliases entries between the heap array and its `knownEntries`
  hash index, so it is modelled with an explicit store (allocation list) and
  pointer identifiers.
* `container/heap` (imported by the source) is transcribed: `up`, `down`,
  `Push`, `Pop`, `Remove`, `Fix` from the Go standard library, specialized to
  the `priorityHelper` methods `Len/Less/Swap/Push/Pop` of
  pkg/util/collection/prioritycollection.go.
-/

namespace GoKit

/-- A Go panic value: `runtimeError` models the repo's `runtimeError` string
type (which implements `runtime.Error`), `stringPanic` models `panic` of a
plain string, `errValue` models `panic` of an `error` built with
`fmt.Errorf`. -/
inductive GoPanic where
  | runtimeError (msg : String)
  | stringPanic (msg : String)
  | errValue (msg : String)
deriving DecidableEq, Repr

/-- Whether an embedded computation panicked. -/
def isPanic {α : Type} : Except GoPanic α → Bool
  | .error _ => true
  | .ok _ => false

/-- `priorityHelperEntry[K, V]`: `{key K; value V; index int}`.  In Go the
`index` field of a freshly allocated entry literal `{key: item}` is the zero
value `0`. -/
structure HEntry (K V : Type) where
  key : K
  value : V
  index : Int
deriving DecidableEq, Repr

variable {K V : Type}

/-- Parent position of a non-root heap position (`(j-1)/2` in `container/heap`;
integer division, matching Go for `j > 0`). -/
def parentIdx (j : Nat) : Nat := (j - 1) / 2

/-- Key stored at position `i` of the backing array, if in bounds. -/
def keyAt (l : List (HEntry K V)) (i : Nat) : Option K := (l[i]?).map (·.key)

/-- `priorityHelper.Less(i, j)`: `comparator(entries[i].key, entries[j].key)`.
Out-of-range positions never occur in the source; they are mapped to
`false`. -/
def lessAt (cmp : K → K → Bool) (l : List (HEntry K V)) (i j : Nat) : Bool :=
  match keyAt l i, keyAt l j with
  | some a, some b => cmp a b
  | _, _ => false

/-- `priorityHelper.Swap(i, j)`: swap the entries and update both `index`
fields to their new positions. -/
def hSwap (l : List (HEntry K V)) (i j : Nat) : List (HEntry K V) :=
  match l[i]?, l[j]? with
  | some ei, some ej =>
      (l.set i { ej with index := (i : Int) }).set j { ei with index := (j : Int) }
  | _, _ => l

/-- `container/heap.up(h, j)`: sift the entry at `j` towards the root while it
is less than its parent. -/
def heapUp (cmp : K → K → Bool) (l : List (HEntry K V)) (j : Nat) :
    List (HEntry K V) :=
  if j = 0 then l
  else if lessAt cmp l j (parentIdx j) then
    heapUp cmp (hSwap l (parentIdx j) j) (parentIdx j)
  else l
termination_by j
decreasing_by
  have : parentIdx j < j := by
    unfold parentIdx
    omega
  omega

/-- The child of `i` chosen by `container/heap.down`: the right child when it
exists and is less than the left child, the left child otherwise. -/
def minChild (cmp : K → K → Bool) (l : List (HEntry K V)) (i n : Nat) : Nat :=
  if 2 * i + 2 < n && lessAt cmp l (2 * i + 2) (2 * i + 1) then 2 * i + 2
  else 2 * i + 1

/-- `container/heap.down(h, i0, n)`: sift the entry at `i0` down within the
first `n` positions; returns the final position (Go returns `i > i0`). -/
def heapDown (cmp : K → K → Bool) (l : List (HEntry K V)) (i n : Nat) :
    List (HEntry K V) × Nat :=
  if h : 2 * i + 1 < n then
    if lessAt cmp l (minChild cmp l i n) i then
      heapDown cmp (hSwap l i (minChild cmp l i n)) (minChild cmp l i n) n
    else (l, i)
  else (l, i)
termination_by n - i
decreasing_by
  have h1 : minChild cmp l i n < n := by
    unfold minChild
    split
    · rename_i hc
      simp only [Bool.and_eq_true, decide_eq_true_eq] at hc
      omega
    · omega
  have h2 : i < minChild cmp l i n := by
    unfold minChild
    split <;> omega
  omega

/-- `priorityHelper.Push` via `container/heap.Push`: append the entry exactly
as allocated (its `index` field is whatever the literal carried, i.e. `0`),
then sift up from the last position. -/
def heapPushGo (cmp : K → K → Bool) (l : List (HEntry K V)) (e : HEntry K V) :
    List (HEntry K V) :=
  heapUp cmp (l ++ [e]) l.length

/-- `priorityHelper.Pop` (the `heap.Interface` method): take the last entry,
set its `index` to `-1`, and drop it from the array. -/
def helperPop (l : List (HEntry K V)) : Option (HEntry K V) × List (HEntry K V) :=
  match l.getLast? with
  | some item => (some { item with index := -1 }, l.dropLast)
  | none => (none, [])

/-- `container/heap.Pop`: swap root and last, sift the new root down within
the first `n-1` positions, then remove the last entry via
`priorityHelper.Pop`.  The source only calls this on a non-empty helper. -/
def heapPopGo (cmp : K → K → Bool) (l : List (HEntry K V)) :
    Option (HEntry K V) × List (HEntry K V) :=
  match l with
  | [] => (none, [])
  | _ :: _ =>
      let l1 := hSwap l 0 (l.length - 1)
      let l2 := (heapDown cmp l1 0 (l.length - 1)).1
      helperPop l2

/-- `container/heap.Remove(h, i)`: swap `i` with the last position, sift down
and (when the entry did not move down) up, then pop the last entry. -/
def heapRemoveGo (cmp : K → K → Bool) (l : List (HEntry K V)) (i : Nat) :
    Option (HEntry K V) × List (HEntry K V) :=
  let n := l.length - 1
  if n ≠ i then
    let l1 := hSwap l i n
    let d := heapDown cmp l1 i n
    let l2 := if d.2 > i then d.1 else heapUp cmp d.1 i
    helperPop l2
  else helperPop l

/-- `container/heap.Fix(h, i)`: sift down from `i` over the whole array and,
when the entry did not move down, sift up.  `Fix` is reached with the stored
(possibly stale) `index` field of an entry; a negative index is a no-op in Go
(`down` breaks on `j1 < 0` and `up` breaks on `i == j`). -/
def heapFixGo (cmp : K → K → Bool) (l : List (HEntry K V)) (i : Int) :
    List (HEntry K V) :=
  if i < 0 then l
  else
    let d := heapDown cmp l i.toNat l.length
    if d.2 > i.toNat then d.1 else heapUp cmp d.1 i.toNat

/-! ## priorityQueue (pkg/util/collection/prioritycollection.go)

A `priorityQueue[T]` owns a `priorityHelper[T, emptyType]` and an `equaler`.
Its state is the helper's entry list; the comparator and equaler are the
(immutable) function fields, passed here as parameters. -/

/-- `priorityQueue.Add(item)`: push a freshly allocated entry
`&priorityHelperEntry{key: item}` — note the `index` field keeps its Go zero
value `0` — and report `replaced = false`. -/
def pqAdd (cmp : K → K → Bool) (l : List (HEntry K Unit)) (k : K) :
    List (HEntry K Unit) :=
  heapPushGo cmp l { key := k, value := (), index := 0 }

/-- `priorityQueue.Len()`. -/
def pqLen (l : List (HEntry K Unit)) : Nat := l.length

/-- `priorityQueue.TryPop()`: empty check, then `heap.Pop`, returning the
popped entry's key. -/
def pqTryPop (cmp : K → K → Bool) (l : List (HEntry K Unit)) :
    Option K × List (HEntry K Unit) :=
  if l.length ≤ 0 then (none, l)
  else
    let r := heapPopGo cmp l
    (r.1.map (·.key), r.2)

/-- `priorityQueue.Pop()` of the earlier interface revision
(prioritycollection.go): byte-for-byte the body of `TryPop` — it returns the
`(item, existing=false)` indicator on an empty queue and never panics. -/
def pqPop (cmp : K → K → Bool) (l : List (HEntry K Unit)) :
    Option K × List (HEntry K Unit) :=
  if l.length ≤ 0 then (none, l)
  else
    let r := heapPopGo cmp l
    (r.1.map (·.key), r.2)

/-- `priorityQueue.Pop()` embedded into the panic monad: its body has no
panicking operation, so the embedding always returns `ok`. -/
def pqPopE (cmp : K → K → Bool) (l : List (HEntry K Unit)) :
    Except GoPanic (Option K × List (HEntry K Unit)) :=
  .ok (pqPop cmp l)

/-- `priorityQueue.TryPeek()`: the root's key, or the not-found indicator. -/
def pqTryPeek (l : List (HEntry K Unit)) : Option K := keyAt l 0

/-- `priorityQueue.Peek()`: `TryPeek`, panicking on the not-found
indicator. -/
def pqPeekE (l : List (HEntry K Unit)) : Except GoPanic K :=
  match pqTryPeek l with
  | some k => .ok k
  | none => .error (.stringPanic "Peek from an empty PriorityCollection.")

/-- `priorityQueue.Has(item)`: linear scan with the caller equaler
(`equaler(item, entry.key)`). -/
def pqHas (eq : K → K → Bool) (l : List (HEntry K Unit)) (item : K) : Bool :=
  l.any (fun e => eq item e.key)

/-- `priorityQueue.RemoveFirst(e)`: remove the first entry (in array order)
whose key the equaler matches, via `heap.Remove` at its position. -/
def pqRemoveFirst (cmp eq : K → K → Bool) (l : List (HEntry K Unit)) (e : K) :
    Bool × List (HEntry K Unit) :=
  match l.findIdx? (fun entry => eq e entry.key) with
  | some i => (true, (heapRemoveGo cmp l i).2)
  | none => (false, l)

end GoKit

namespace GoKit

/-! ## priorityMap (pkg/util/collection/prioritycollection.go + map.go)

A `priorityMap[K, V]` owns a `priorityHelper[K, V]` and a `knownEntries`
hash index mapping keys to the very `*priorityHelperEntry` pointers stored in
the helper's array.  Pointers are modelled with an explicit allocation store:
an entry's identity is its position in `store`, the helper's backing array
and the hash-index values hold identities, and mutation through a pointer is
an update of `store`. -/

variable {K V C W : Type}

/-- The `priorityHelper` of a `priorityMap`: the allocation store plus the
backing array of entry pointers. -/
structure PHelper (K V : Type) where
  store : List (HEntry K V)
  heapIds : List Nat
deriving DecidableEq, Repr

/-- Write the `index` field of the entry that pointer `id` designates. -/
def storeSetIndex (st : List (HEntry K V)) (id : Nat) (ix : Int) :
    List (HEntry K V) :=
  match st[id]? with
  | some e => st.set id { e with index := ix }
  | none => st

/-- Key at position `i` of the helper's backing array (one pointer
dereference). -/
def phKeyAt (h : PHelper K V) (i : Nat) : Option K :=
  match h.heapIds[i]? with
  | some id => (h.store[id]?).map (·.key)
  | none => none

/-- `priorityHelper.Less(i, j)` for the map's helper. -/
def phLess (cmp : K → K → Bool) (h : PHelper K V) (i j : Nat) : Bool :=
  match phKeyAt h i, phKeyAt h j with
  | some a, some b => cmp a b
  | _, _ => false

/-- `priorityHelper.Swap(i, j)` for the map's helper: swap the pointers and
update the `index` fields through them. -/
def phSwap (h : PHelper K V) (i j : Nat) : PHelper K V :=
  match h.heapIds[i]?, h.heapIds[j]? with
  | some a, some b =>
      { store := storeSetIndex (storeSetIndex h.store b (i : Int)) a (j : Int),
        heapIds := (h.heapIds.set i b).set j a }
  | _, _ => h

/-- Chosen child for `container/heap.down` on the map's helper. -/
def phMinChild (cmp : K → K → Bool) (h : PHelper K V) (i n : Nat) : Nat :=
  if 2 * i + 2 < n && phLess cmp h (2 * i + 2) (2 * i + 1) then 2 * i + 2
  else 2 * i + 1

/-- `container/heap.up` on the map's helper. -/
def phUp (cmp : K → K → Bool) (h : PHelper K V) (j : Nat) : PHelper K V :=
  if j = 0 then h
  else if phLess cmp h j (parentIdx j) then
    phUp cmp (phSwap h (parentIdx j) j) (parentIdx j)
  else h
termination_by j
decreasing_by
  unfold parentIdx
  omega

/-- `container/heap.down` on the map's helper. -/
def phDown (cmp : K → K → Bool) (h : PHelper K V) (i n : Nat) :
    PHelper K V × Nat :=
  if hn : 2 * i + 1 < n then
    if phLess cmp h (phMinChild cmp h i n) i then
      phDown cmp (phSwap h i (phMinChild cmp h i n)) (phMinChild cmp h i n) n
    else (h, i)
  else (h, i)
termination_by n - i
decreasing_by
  have h1 : phMinChild cmp h i n < n := by
    unfold phMinChild
    split
    · rename_i hc
      simp only [Bool.and_eq_true, decide_eq_true_eq] at hc
      omega
    · omega
  have h2 : i < phMinChild cmp h i n := by
    unfold phMinChild
    split <;> omega
  omega

/-- Allocate `&priorityHelperEntry{key: key, value: value}` (index is the Go
zero value `0`) and `heap.Push` it; returns the new pointer's identity too. -/
def phPushGo (cmp : K → K → Bool) (h : PHelper K V) (k : K) (v : V) :
    PHelper K V :=
  let id := h.store.length
  let h1 : PHelper K V :=
    { store := h.store ++ [{ key := k, value := v, index := 0 }],
      heapIds := h.heapIds ++ [id] }
  phUp cmp h1 (h.heapIds.length)

/-- `priorityHelper.Pop` on the map's helper: last pointer's entry gets
`index = -1` and the pointer leaves the array. -/
def phHelperPop (h : PHelper K V) : Option Nat × PHelper K V :=
  match h.heapIds.getLast? with
  | some id =>
      (some id,
        { store := storeSetIndex h.store id (-1), heapIds := h.heapIds.dropLast })
  | none => (none, h)

/-- `container/heap.Pop` on the map's helper. -/
def phPopGo (cmp : K → K → Bool) (h : PHelper K V) : Option Nat × PHelper K V :=
  match h.heapIds with
  | [] => (none, h)
  | _ :: _ =>
      let h1 := phSwap h 0 (h.heapIds.length - 1)
      let h2 := (phDown cmp h1 0 (h.heapIds.length - 1)).1
      phHelperPop h2

/-- `container/heap.Fix(h, i)` on the map's helper, taking the stored
(possibly stale) `index` field; negative indices are a no-op in Go. -/
def phFixGo (cmp : K → K → Bool) (h : PHelper K V) (i : Int) : PHelper K V :=
  if i < 0 then h
  else
    let d := phDown cmp h i.toNat h.heapIds.length
    if d.2 > i.toNat then d.1 else phUp cmp d.1 i.toNat

/-! ### mapImpl (pkg/util/collection/map.go), used as `knownEntries`

`mapImpl` is a bucket hash map `map[C][]*Pair[K, W]` with caller-supplied
hasher and equaler; the Go built-in map on the comparable hash type `C` is
modelled as an association list with one binding per hash. -/

/-- One bucket of `mapImpl.Put`: mutate the first equaler-matching pair in
place (`pair.Key = key; pair.Value = value`), otherwise append. -/
def bucketPut (eqr : K → K → Bool) (pairs : List (K × W)) (k : K) (w : W) :
    Option W × List (K × W) :=
  match pairs with
  | [] => (none, [(k, w)])
  | p :: rest =>
      if eqr k p.1 then (some p.2, (k, w) :: rest)
      else
        let r := bucketPut eqr rest k w
        (r.1, p :: r.2)

/-- One bucket of `mapImpl.Remove`: drop the first equaler-matching pair. -/
def bucketRemove (eqr : K → K → Bool) (pairs : List (K × W)) (k : K) :
    Option W × List (K × W) :=
  match pairs with
  | [] => (none, [])
  | p :: rest =>
      if eqr k p.1 then (some p.2, rest)
      else
        let r := bucketRemove eqr rest k
        (r.1, p :: r.2)

/-- `mapImpl[K, W, C]` state. -/
structure GoMap (C K W : Type) where
  data : List (C × List (K × W))
  size : Nat
deriving DecidableEq, Repr

/-- Go built-in map lookup `m.data[hash]`. -/
def goIndex [DecidableEq C] (data : List (C × List (K × W))) (c : C) :
    Option (List (K × W)) :=
  (data.find? (fun p => decide (p.1 = c))).map (·.2)

/-- Go built-in map store `m.data[hash] = bucket` (binding present). -/
def goIndexSet [DecidableEq C] (data : List (C × List (K × W))) (c : C)
    (b : List (K × W)) : List (C × List (K × W)) :=
  data.map (fun p => if p.1 = c then (c, b) else p)

/-- Go built-in `delete(m.data, hash)`. -/
def goIndexDel [DecidableEq C] (data : List (C × List (K × W))) (c : C) :
    List (C × List (K × W)) :=
  data.filter (fun p => decide (p.1 ≠ c))

/-- `mapImpl.Put`. -/
def mapPut [DecidableEq C] (hasher : K → C) (eqr : K → K → Bool)
    (m : GoMap C K W) (k : K) (w : W) : Option W × GoMap C K W :=
  let c := hasher k
  match goIndex m.data c with
  | some pairs =>
      let r := bucketPut eqr pairs k w
      match r.1 with
      | some old => (some old, { m with data := goIndexSet m.data c r.2 })
      | none =>
          (none, { data := goIndexSet m.data c r.2, size := m.size + 1 })
  | none => (none, { data := m.data ++ [(c, [(k, w)])], size := m.size + 1 })

/-- `mapImpl.Get`. -/
def mapGet [DecidableEq C] (hasher : K → C) (eqr : K → K → Bool)
    (m : GoMap C K W) (k : K) : Option W :=
  match goIndex m.data (hasher k) with
  | some pairs => (pairs.find? (fun p => eqr k p.1)).map (·.2)
  | none => none

/-- `mapImpl.Remove`. -/
def mapRemove [DecidableEq C] (hasher : K → C) (eqr : K → K → Bool)
    (m : GoMap C K W) (k : K) : Option W × GoMap C K W :=
  let c := hasher k
  match goIndex m.data c with
  | some pairs =>
      let r := bucketRemove eqr pairs k
      match r.1 with
      | some old =>
          if r.2.isEmpty then
            (some old, { data := goIndexDel m.data c, size := m.size - 1 })
          else
            (some old, { data := goIndexSet m.data c r.2, size := m.size - 1 })
      | none => (none, m)
  | none => (none, m)

/-- `mapImpl.ContainsKey`. -/
def mapContainsKey [DecidableEq C] (hasher : K → C) (eqr : K → K → Bool)
    (m : GoMap C K W) (k : K) : Bool :=
  (mapGet hasher eqr m k).isSome

/-! ### priorityMap proper -/

/-- `priorityMap[K, V]` state: the helper plus `knownEntries` mapping keys to
entry pointers (identities). -/
structure PMap (K V C : Type) where
  helper : PHelper K V
  known : GoMap C K Nat
deriving DecidableEq, Repr

/-- The empty `priorityMap` built by `NewPriorityMap`. -/
def pmEmpty (K V C : Type) : PMap K V C :=
  { helper := { store := [], heapIds := [] }, known := { data := [], size := 0 } }

/-- `priorityMap.Len()`. -/
def pmLen (m : PMap K V C) : Nat := m.helper.heapIds.length

/-- `priorityMap.Put(key, value)`: on an existing key, mutate the entry in
place through the stored pointer, `heap.Fix` at its stored `index` field, and
re-register the pointer; otherwise allocate, `heap.Push` and register. -/
def pmPut [DecidableEq C] (cmp : K → K → Bool) (hasher : K → C)
    (eqr : K → K → Bool) (m : PMap K V C) (k : K) (v : V) :
    Option V × PMap K V C :=
  match mapGet hasher eqr m.known k with
  | some id =>
      match m.helper.store[id]? with
      | some e =>
          let h1 : PHelper K V :=
            { m.helper with store := m.helper.store.set id { e with key := k, value := v } }
          let h2 := phFixGo cmp h1 e.index
          let kn := (mapPut hasher eqr m.known k id).2
          (some e.value, { helper := h2, known := kn })
      | none => (none, m)
  | none =>
      let id := m.helper.store.length
      let h1 := phPushGo cmp m.helper k v
      let kn := (mapPut hasher eqr m.known k id).2
      (none, { helper := h1, known := kn })

/-- `priorityMap.Get(key)`: the value of the entry the hash index knows. -/
def pmGet [DecidableEq C] (hasher : K → C) (eqr : K → K → Bool)
    (m : PMap K V C) (k : K) : Option V :=
  match mapGet hasher eqr m.known k with
  | some id => (m.helper.store[id]?).map (·.value)
  | none => none

/-- `priorityMap.ContainsKey(key)`. -/
def pmContainsKey [DecidableEq C] (hasher : K → C) (eqr : K → K → Bool)
    (m : PMap K V C) (k : K) : Bool :=
  mapContainsKey hasher eqr m.known k

/-- `priorityMap.TryPop()`: guard on `Len`, `heap.Pop`, then remove the
popped entry's key from `knownEntries`. -/
def pmTryPop [DecidableEq C] (cmp : K → K → Bool) (hasher : K → C)
    (eqr : K → K → Bool) (m : PMap K V C) : Option (K × V) × PMap K V C :=
  if pmLen m ≤ 0 then (none, m)
  else
    match phPopGo cmp m.helper with
    | (some id, h1) =>
        match h1.store[id]? with
        | some e =>
            let kn := (mapRemove hasher eqr m.known e.key).2
            (some (e.key, e.value), { helper := h1, known := kn })
        | none => (none, m)
    | (none, _) => (none, m)

/-- `priorityMap.TryPeek()`. -/
def pmTryPeek (m : PMap K V C) : Option (K × V) :=
  match m.helper.heapIds[0]? with
  | some id => (m.helper.store[id]?).map (fun e => (e.key, e.value))
  | none => none

/-- `priorityMap.Peek()`: `TryPeek`, panicking on the not-found indicator. -/
def pmPeekE (m : PMap K V C) : Except GoPanic (K × V) :=
  match pmTryPeek m with
  | some p => .ok p
  | none => .error (.stringPanic "Peek from an empty PriorityCollection.")

/-- Decidable check of the binary-heap property of the map's helper: no
non-root position holds a key the comparator reports strictly less than its
parent's key. -/
def phHeapOrderedB (cmp : K → K → Bool) (h : PHelper K V) : Bool :=
  (List.range h.heapIds.length).all
    (fun j => j == 0 || !(phLess cmp h j (parentIdx j)))

end GoKit

namespace GoKit

/-! ## DelayingExecutor (pkg/util/delaying.go) -/

/-- `waitFor`: the scheduled action plus its ready instant.  The function
payload itself is immaterial here; a `waitFor` allocation is identified by its
pointer (`id`), and `time.Time` is modelled as an integer instant. -/
structure WaitFor where
  id : Nat
  readyAt : Int
deriving DecidableEq, Repr

/-- `waitForComparator`: `first.readyAt.Before(second.readyAt)`. -/
def waitForComparator (first second : WaitFor) : Bool :=
  first.readyAt < second.readyAt

/-- The equaler `NewDelayingExecutor` installs on its pending collection:
`first.readyAt == second.readyAt &&
 reflect.ValueOf(first).Pointer() != reflect.ValueOf(second).Pointer()` —
note the `!=`: equal ready instants with *different* pointers. -/
def waitForEqualer (first second : WaitFor) : Bool :=
  decide (first.readyAt = second.readyAt) && !(decide (first.id = second.id))

/-- The executor state visible to `ExcuteAfter`/shutdown: whether `stopCh`,
`slowStopCh` and `waitingForAddCh` are closed, plus the entries buffered in
`waitingForAddCh`.  Closed channels never reopen, and no operation of the
source resets these flags. -/
structure ExecState where
  stopClosed : Bool
  slowStopClosed : Bool
  addChClosed : Bool
  buffer : List WaitFor
deriving DecidableEq, Repr

/-- State right after `NewDelayingExecutor`. -/
def newExecState : ExecState :=
  { stopClosed := false, slowStopClosed := false, addChClosed := false,
    buffer := [] }

/-- `DelayingExecutor.ShutDownFast`: close `stopCh` and `slowStopCh` (both
via `sync.Once`). -/
def shutDownFast (s : ExecState) : ExecState :=
  { s with stopClosed := true, slowStopClosed := true }

/-- `DelayingExecutor.ShutDownWithDrain`: close `waitingForAddCh` (via
`sync.Once`); with `block = true` it additionally waits on `slowStopCh`,
which does not change this state. -/
def shutDownWithDrain (s : ExecState) : ExecState :=
  { s with addChClosed := true }

/-- The body of `ExcuteAfter` without its deferred recover: the `select`
takes the ready `<-d.stopCh` case and panics with the dedicated
`runtimeError`, otherwise the send on a closed `waitingForAddCh` raises the
Go runtime error `send on closed channel`, otherwise the entry is buffered. -/
def excuteAfterRaw (s : ExecState) (w : WaitFor) : Except GoPanic ExecState :=
  if s.stopClosed then .error (.runtimeError "Executor has been shutted down!")
  else if s.addChClosed then .error (.runtimeError "send on closed channel")
  else .ok { s with buffer := s.buffer ++ [w] }

/-- `DelayingExecutor.ExcuteAfter`: the deferred recover turns a
`runtime.Error` reading `send on closed channel` into the dedicated shutdown
`runtimeError` and re-panics anything else unchanged. -/
def excuteAfter (s : ExecState) (w : WaitFor) : Except GoPanic ExecState :=
  match excuteAfterRaw s w with
  | .error (.runtimeError m) =>
      if m = "send on closed channel" then
        .error (.runtimeError "Executor has been shutted down!")
      else .error (.runtimeError m)
  | r => r

/-! ## ParallelProcessor.worker (pkg/util/parallelprocessor.go) -/

/-- One invocation of a user loop function either returns a `goNext` flag or
panics with a value (panic values are abstracted as naturals). -/
inductive LoopOutcome where
  | ret (goNext : Bool)
  | panics (v : Nat)
deriving DecidableEq, Repr

/-- A panic handler's behaviour on a given panic value: `none` means it
returns normally, `some w` means it panics with `w`. -/
def HandlerBehavior : Type := Nat → Option Nat

/-- `ParallelProcessor.worker`, with Go's defer/recover semantics made
explicit.  Returns the named result `goNext` and the list of panic values the
handler was invoked with.
* `ctx` already done: the `select` returns `false`; no panic, no defer fires.
* `loopFunc` returns: its value is the result.
* `loopFunc` panics and no handler is registered: only the outer deferred
  recover runs and sets `goNext = true`.
* `loopFunc` panics and the handler (registered later, so run first) returns
  normally: the panic is recovered, the outer recover sees `nil`, and the
  named result keeps its zero value `false`.
* `loopFunc` panics and the handler panics too: the outer recover catches the
  secondary panic and sets `goNext = true`. -/
def worker (ctxDone : Bool) (loop : LoopOutcome)
    (handler : Option HandlerBehavior) : Bool × List Nat :=
  if ctxDone then (false, [])
  else
    match loop with
    | .ret b => (b, [])
    | .panics v =>
        match handler with
        | none => (true, [])
        | some h =>
            match h v with
            | none => (false, [v])
            | some _ => (true, [v])

/-! ## DelayingChannel (pkg/util/delaying.go) -/

/-- `DelayingChannel[T]` state as seen by `Close`: its executor, the output
channel's buffered values, the `isClosed` flag and the outstanding-task
counter.  The background goroutine `Close` spawns only drains and finally
closes `ch`; it never touches `isClosed`. -/
structure DChanState (T : Type) where
  executor : ExecState
  ch : List T
  isClosed : Bool
  remainingTasks : Int
deriving Repr

/-- `DelayingChannel.Close`: under the lock, panic if already closed,
otherwise shut the executor's ingestion path down (`ShutDownWithDrain(false)`)
and set `isClosed`. -/
def dcClose {T : Type} (s : DChanState T) : Except GoPanic (DChanState T) :=
  if s.isClosed then .error (.runtimeError "\"send on closed channel\"")
  else .ok { s with executor := shutDownWithDrain s.executor, isClosed := true }

/-! ## Concrete comparators and states used by the claims -/

/-- The ascending comparator on naturals of concrete scenario 5. -/
def natAscComparator : Nat → Nat → Bool := fun a b => decide (a < b)

/-- Keys of the decrease-key scenario: `(identity, priority)` pairs whose
hash and equality look only at the identity while the comparator orders by
priority (as the executor's `waitFor` keys do with `readyAt`). -/
def prioCmp : Nat × Nat → Nat × Nat → Bool := fun a b => decide (a.2 < b.2)

/-- Hasher on the identity component. -/
def idHasher : Nat × Nat → Nat := Prod.fst

/-- Equaler on the identity component. -/
def idEqualer : Nat × Nat → Nat × Nat → Bool := fun a b => decide (a.1 = b.1)

/-- `Put` on the scenario map, keeping only the state. -/
def scenarioPut (m : PMap (Nat × Nat) Nat Nat) (k : Nat × Nat) (v : Nat) :
    PMap (Nat × Nat) Nat Nat :=
  (pmPut prioCmp idHasher idEqualer m k v).2

/-- Six insertions in ascending priority order — none of the entries after
the first ever sifts up, so (Go zero value) each keeps `index = 0` — followed
by a `Put` of the existing identity `6` at the new, smallest priority `5`:
`heap.Fix` then runs at the stale index `0` instead of the entry's true
position `5`. -/
def decreaseKeyRun : PMap (Nat × Nat) Nat Nat :=
  scenarioPut
    (scenarioPut
      (scenarioPut
        (scenarioPut
          (scenarioPut
            (scenarioPut
              (scenarioPut (pmEmpty (Nat × Nat) Nat Nat) (1, 10) 0)
              (2, 20) 0)
            (3, 30) 0)
          (4, 40) 0)
        (5, 50) 0)
      (6, 60) 0)
    (6, 5) 7

/-- Decidable check of the claim `heap.entries[entry.index] == entry` for
every live entry of a `priorityQueue`. -/
def pqIndexInvB {K : Type} [DecidableEq K] (l : List (HEntry K Unit)) : Bool :=
  l.all (fun e =>
    0 ≤ e.index &&
    match l[e.index.toNat]? with
    | some e2 => e2 == e
    | none => false)

end GoKit

namespace GoKit

/-! ## Predicates, operation sequences and the pop-order observer (C8) -/

variable {K V : Type}

/-- Binary-heap property restricted to the first `n` positions: no non-root
position below `n` holds a key the comparator reports strictly less than its
parent's key. -/
def HeapOrderedUpTo (cmp : K → K → Bool) (l : List (HEntry K V)) (n : Nat) :
    Prop :=
  ∀ j, j < n → 0 < j → lessAt cmp l j (parentIdx j) = false

/-- Binary-heap property of the whole backing array. -/
def HeapOrdered (cmp : K → K → Bool) (l : List (HEntry K V)) : Prop :=
  HeapOrderedUpTo cmp l l.length

/-- Comparator contract (a strict weak order): asymmetry. -/
def CmpAsymm (cmp : K → K → Bool) : Prop :=
  ∀ a b, cmp a b = true → cmp b a = false

/-- Comparator contract (a strict weak order): the complement of `less` is
transitive. -/
def CmpNegTrans (cmp : K → K → Bool) : Prop :=
  ∀ a b c, cmp b a = false → cmp c b = false → cmp c a = false

/-- The operations claim C8 exercises on a bare `priorityQueue`. -/
inductive QOp (K : Type) where
  | add (k : K)
  | pop

/-- Run a sequence of queue operations from the freshly built (empty)
queue. -/
def runQ (cmp : K → K → Bool) (ops : List (QOp K)) : List (HEntry K Unit) :=
  ops.foldl
    (fun s op =>
      match op with
      | .add k => pqAdd cmp s k
      | .pop => (pqTryPop cmp s).2)
    []

/-- Repeated `TryPop`, collecting the returned keys. -/
def popRepeat (cmp : K → K → Bool) : Nat → List (HEntry K Unit) → List K
  | 0, _ => []
  | fuel + 1, l =>
      match pqTryPop cmp l with
      | (some k, l2) => k :: popRepeat cmp fuel l2
      | (none, _) => []

/-- All stored keys of the queue in pop order. -/
def popAllQ (cmp : K → K → Bool) (l : List (HEntry K Unit)) : List K :=
  popRepeat cmp l.length l

/-- Where position `p` ends up under a swap of positions `i` and `j`. -/
def swapPos (i j p : Nat) : Nat :=
  if p = i then j else if p = j then i else p

end GoKit

namespace GoKit

/-! ## Helper lemmas for the heap proofs -/

variable {K V : Type}

theorem minChild_lt {cmp : K → K → Bool} {l : List (HEntry K V)} {i n : Nat}
    (h : 2 * i + 1 < n) : minChild cmp l i n < n := by
  unfold minChild
  split
  · rename_i hc
    simp only [Bool.and_eq_true, decide_eq_true_eq] at hc
    omega
  · omega

theorem lt_minChild (cmp : K → K → Bool) (l : List (HEntry K V)) (i n : Nat) :
    i < minChild cmp l i n := by
  unfold minChild
  split <;> omega

theorem parentIdx_lt {j : Nat} (h : 0 < j) : parentIdx j < j := by
  unfold parentIdx
  omega

theorem hSwap_length (l : List (HEntry K V)) (i j : Nat) :
    (hSwap l i j).length = l.length := by
  unfold hSwap
  split <;> simp

theorem keyAt_hSwap {l : List (HEntry K V)} {i j : Nat} (hi : i < l.length)
    (hj : j < l.length) (p : Nat) :
    keyAt (hSwap l i j) p =
      keyAt l (if p = i then j else if p = j then i else p) := by
  unfold hSwap keyAt
  rw [List.getElem?_eq_getElem hi, List.getElem?_eq_getElem hj]
  by_cases hpj : p = j
  · subst hpj
    by_cases hpi : p = i
    · subst hpi
      simp [List.getElem?_set, List.length_set, hi, List.getElem?_eq_getElem]
    · simp [List.getElem?_set, List.length_set, hj, hpi,
        List.getElem?_eq_getElem hi]
  · by_cases hpi : p = i
    · subst hpi
      simp [List.getElem?_set, List.length_set, hi, hpj, Ne.symm hpj,
        List.getElem?_eq_getElem hj]
    · simp [List.getElem?_set, List.length_set, hpj, hpi, Ne.symm hpj,
        Ne.symm hpi]

theorem lessAt_hSwap {cmp : K → K → Bool} {l : List (HEntry K V)} {i j : Nat}
    (hi : i < l.length) (hj : j < l.length) (p q : Nat) :
    lessAt cmp (hSwap l i j) p q =
      lessAt cmp l (if p = i then j else if p = j then i else p)
        (if q = i then j else if q = j then i else q) := by
  unfold lessAt
  rw [keyAt_hSwap hi hj, keyAt_hSwap hi hj]

end GoKit


namespace GoKit

/-! ## Length and key-membership preservation -/

variable {K V : Type}

theorem heapUp_length (cmp : K → K → Bool) (l : List (HEntry K V)) (j : Nat) :
    (heapUp cmp l j).length = l.length := by
  induction l, j using heapUp.induct cmp with
  | case1 l =>
      rw [heapUp]
      simp
  | case2 l j hj hlt ih =>
      rw [heapUp]
      simp only [if_neg hj, if_pos hlt]
      rw [ih, hSwap_length]
  | case3 l j hj hlt =>
      rw [heapUp]
      simp [hj, hlt]

theorem heapDown_length (cmp : K → K → Bool) (l : List (HEntry K V)) (i n : Nat) :
    ((heapDown cmp l i n).1).length = l.length := by
  induction l, i, n using heapDown.induct cmp with
  | case1 l i n hn hlt ih =>
      rw [heapDown]
      simp only [dif_pos hn, if_pos hlt]
      rw [ih, hSwap_length]
  | case2 l i n hn hlt =>
      rw [heapDown]
      simp [hn, hlt]
  | case3 l i n hn =>
      rw [heapDown]
      simp [hn]

theorem keyAt_lt_of_some {l : List (HEntry K V)} {p : Nat} {x : K}
    (h : keyAt l p = some x) : p < l.length := by
  unfold keyAt at h
  rcases hp : l[p]? with _ | e
  · rw [hp] at h
    simp at h
  · exact (List.getElem?_eq_some.1 hp).1

theorem keyAt_isSome_of_lt {l : List (HEntry K V)} {p : Nat}
    (hp : p < l.length) : ∃ a, keyAt l p = some a := by
  unfold keyAt
  rw [List.getElem?_eq_getElem hp]
  exact ⟨_, rfl⟩

theorem mem_keys_iff_keyAt (l : List (HEntry K V)) (x : K) :
    x ∈ l.map (·.key) ↔ ∃ p, keyAt l p = some x := by
  constructor
  · intro hx
    obtain ⟨e, he, hk⟩ := List.mem_map.1 hx
    obtain ⟨p, hp, hpe⟩ := List.mem_iff_getElem.1 he
    refine ⟨p, ?_⟩
    unfold keyAt
    rw [List.getElem?_eq_getElem hp, hpe]
    simp [hk]
  · rintro ⟨p, hp⟩
    have hlt := keyAt_lt_of_some hp
    unfold keyAt at hp
    rw [List.getElem?_eq_getElem hlt] at hp
    simp at hp
    exact List.mem_map.2 ⟨_, List.getElem_mem hlt, hp⟩

theorem keys_mem_hSwap (l : List (HEntry K V)) (i j : Nat) (x : K) :
    x ∈ (hSwap l i j).map (·.key) ↔ x ∈ l.map (·.key) := by
  by_cases hi : i < l.length
  · by_cases hj : j < l.length
    · rw [mem_keys_iff_keyAt, mem_keys_iff_keyAt]
      constructor
      · rintro ⟨p, hp⟩
        rw [keyAt_hSwap hi hj] at hp
        exact ⟨_, hp⟩
      · rintro ⟨p, hp⟩
        refine ⟨if p = j then i else if p = i then j else p, ?_⟩
        rw [keyAt_hSwap hi hj]
        by_cases hpj : p = j <;> by_cases hpi : p = i <;>
          simp_all
    · unfold hSwap
      rw [List.getElem?_eq_getElem hi, (List.getElem?_eq_none (by omega))]
  · unfold hSwap
    rw [List.getElem?_eq_none (by omega)]

theorem keys_mem_heapUp (cmp : K → K → Bool) (l : List (HEntry K V)) (j : Nat)
    (x : K) : x ∈ (heapUp cmp l j).map (·.key) ↔ x ∈ l.map (·.key) := by
  induction l, j using heapUp.induct cmp with
  | case1 l =>
      rw [heapUp]
      simp
  | case2 l j hj hlt ih =>
      rw [heapUp]
      simp only [if_neg hj, if_pos hlt]
      rw [ih, keys_mem_hSwap]
  | case3 l j hj hlt =>
      rw [heapUp]
      simp [hj, hlt]

theorem keys_mem_heapDown (cmp : K → K → Bool) (l : List (HEntry K V))
    (i n : Nat) (x : K) :
    x ∈ ((heapDown cmp l i n).1).map (·.key) ↔ x ∈ l.map (·.key) := by
  induction l, i, n using heapDown.induct cmp with
  | case1 l i n hn hlt ih =>
      rw [heapDown]
      simp only [dif_pos hn, if_pos hlt]
      rw [ih, keys_mem_hSwap]
  | case2 l i n hn hlt =>
      rw [heapDown]
      simp [hn, hlt]
  | case3 l i n hn =>
      rw [heapDown]
      simp [hn]

theorem heapDown_keyAt_ge (cmp : K → K → Bool) (l : List (HEntry K V))
    (i n : Nat) (hn : n ≤ l.length) :
    ∀ p, n ≤ p → keyAt (heapDown cmp l i n).1 p = keyAt l p := by
  induction l, i, n using heapDown.induct cmp with
  | case1 l i n hn2 hlt ih =>
      intro p hp
      rw [heapDown]
      simp only [dif_pos hn2, if_pos hlt]
      have hi : i < l.length := by
        omega
      have hj : minChild cmp l i n < l.length := by
        have := @minChild_lt K V cmp l _ _ hn2
        omega
      rw [ih (by rw [hSwap_length]; exact hn) p hp, keyAt_hSwap hi hj]
      have h1 : ¬ p = i := by
        omega
      have h2 : ¬ p = minChild cmp l i n := by
        have := @minChild_lt K V cmp l _ _ hn2
        omega
      simp [h1, h2]
  | case2 l i n hn2 hlt =>
      intro p hp
      rw [heapDown]
      simp [hn2, hlt]
  | case3 l i n hn2 =>
      intro p hp
      rw [heapDown]
      simp [hn2]

end GoKit

namespace GoKit

/-! ## Comparator consequences -/

variable {K V : Type} {cmp : K → K → Bool}

theorem cmp_irrefl (Hasym : CmpAsymm cmp) (a : K) : cmp a a = false := by
  by_cases h : cmp a a = true
  · exact absurd (Hasym a a h) (by simp [h])
  · simpa using h

theorem cmp_trans (Hasym : CmpAsymm cmp) (Hneg : CmpNegTrans cmp) {a b c : K}
    (h1 : cmp a b = true) (h2 : cmp b c = true) : cmp a c = true := by
  by_contra hac
  have hac2 : cmp a c = false := by simpa using hac
  have hba : cmp b a = false := Hasym a b h1
  have hbc : cmp b c = false := Hneg c a b hac2 hba
  rw [hbc] at h2
  exact absurd h2 (by simp)

theorem lessAt_key {l : List (HEntry K V)} {p q : Nat} {a b : K}
    (hp : keyAt l p = some a) (hq : keyAt l q = some b) :
    lessAt cmp l p q = cmp a b := by
  unfold lessAt
  rw [hp, hq]

theorem lessAt_asymm (Hasym : CmpAsymm cmp) {l : List (HEntry K V)} {p q : Nat}
    (hp : p < l.length) (hq : q < l.length) (h : lessAt cmp l p q = true) :
    lessAt cmp l q p = false := by
  obtain ⟨a, ha⟩ := keyAt_isSome_of_lt hp
  obtain ⟨b, hb⟩ := keyAt_isSome_of_lt hq
  rw [lessAt_key ha hb] at h
  rw [lessAt_key hb ha]
  exact Hasym a b h

theorem lessAt_negtrans (Hneg : CmpNegTrans cmp) {l : List (HEntry K V)}
    {p q r : Nat} (hp : p < l.length) (hq : q < l.length) (hr : r < l.length)
    (h1 : lessAt cmp l q p = false) (h2 : lessAt cmp l r q = false) :
    lessAt cmp l r p = false := by
  obtain ⟨a, ha⟩ := keyAt_isSome_of_lt hp
  obtain ⟨b, hb⟩ := keyAt_isSome_of_lt hq
  obtain ⟨c, hc⟩ := keyAt_isSome_of_lt hr
  rw [lessAt_key hb ha] at h1
  rw [lessAt_key hc hb] at h2
  rw [lessAt_key hc ha]
  exact Hneg a b c h1 h2

theorem lessAt_false_of_false_of_true (Hasym : CmpAsymm cmp)
    (Hneg : CmpNegTrans cmp) {l : List (HEntry K V)} {p q r : Nat}
    (hp : p < l.length) (hq : q < l.length) (hr : r < l.length)
    (h1 : lessAt cmp l p q = false) (h2 : lessAt cmp l r q = true) :
    lessAt cmp l p r = false := by
  obtain ⟨a, ha⟩ := keyAt_isSome_of_lt hp
  obtain ⟨b, hb⟩ := keyAt_isSome_of_lt hq
  obtain ⟨c, hc⟩ := keyAt_isSome_of_lt hr
  rw [lessAt_key ha hb] at h1
  rw [lessAt_key hc hb] at h2
  rw [lessAt_key ha hc]
  by_contra hacne
  have hac : cmp a c = true := by simpa using hacne
  have := cmp_trans Hasym Hneg hac h2
  rw [this] at h1
  exact absurd h1 (by simp)

theorem lessAt_hSwap_pos {l : List (HEntry K V)} {i j : Nat}
    (hi : i < l.length) (hj : j < l.length) (p q : Nat) :
    lessAt cmp (hSwap l i j) p q =
      lessAt cmp l (swapPos i j p) (swapPos i j q) :=
  lessAt_hSwap hi hj p q

theorem swapPos_fst (i j : Nat) : swapPos i j i = j := by
  unfold swapPos
  by_cases h : i = j <;> simp [h]

theorem swapPos_snd (i j : Nat) : swapPos i j j = i := by
  unfold swapPos
  by_cases h : j = i <;> simp [h]

theorem swapPos_other {i j p : Nat} (h1 : p ≠ i) (h2 : p ≠ j) :
    swapPos i j p = p := by
  unfold swapPos
  simp [h1, h2]

end GoKit

namespace GoKit

/-! ## Sift-up re-establishes the heap property -/

variable {K V : Type} {cmp : K → K → Bool}

theorem minChild_spec (cmp : K → K → Bool) (l : List (HEntry K V)) (i n : Nat) :
    (minChild cmp l i n = 2 * i + 2 ∧ 2 * i + 2 < n ∧
      lessAt cmp l (2 * i + 2) (2 * i + 1) = true) ∨
    (minChild cmp l i n = 2 * i + 1 ∧
      (2 * i + 2 < n → lessAt cmp l (2 * i + 2) (2 * i + 1) = false)) := by
  unfold minChild
  split
  · rename_i hc
    simp only [Bool.and_eq_true, decide_eq_true_eq] at hc
    exact Or.inl ⟨rfl, hc.1, hc.2⟩
  · rename_i hc
    right
    refine ⟨rfl, fun h2 => ?_⟩
    by_contra hlt
    have hlt2 : lessAt cmp l (2 * i + 2) (2 * i + 1) = true := by
      simpa using hlt
    exact hc (by simp [h2, hlt2])

theorem parentIdx_minChild (cmp : K → K → Bool) (l : List (HEntry K V))
    {i n : Nat} (hn : 2 * i + 1 < n) : parentIdx (minChild cmp l i n) = i := by
  unfold minChild parentIdx
  split <;> omega

theorem minChild_other (Hasym : CmpAsymm cmp) {l : List (HEntry K V)}
    {i n p : Nat} (hn : 2 * i + 1 < n) (hnl : n ≤ l.length) (hp : p < n)
    (hpar : parentIdx p = i) (hp0 : 0 < p) (hpj : p ≠ minChild cmp l i n) :
    lessAt cmp l p (minChild cmp l i n) = false := by
  have hcases : p = 2 * i + 1 ∨ p = 2 * i + 2 := by
    unfold parentIdx at hpar
    omega
  rcases minChild_spec cmp l i n with ⟨hm, h2n, hRL⟩ | ⟨hm, hcond⟩
  · have hpL : p = 2 * i + 1 := by
      rcases hcases with h | h
      · exact h
      · exact absurd (h.trans hm.symm) hpj
    rw [hm, hpL]
    exact lessAt_asymm Hasym (by omega) (by omega) hRL
  · have hpR : p = 2 * i + 2 := by
      rcases hcases with h | h
      · exact absurd (h.trans hm.symm) hpj
      · exact h
    rw [hm, hpR]
    exact hcond (by omega)

theorem heapUp_ordered (Hasym : CmpAsymm cmp) (Hneg : CmpNegTrans cmp) :
    ∀ (l : List (HEntry K V)) (j : Nat), j < l.length →
      (∀ p, p < l.length → 0 < p → p ≠ j →
        lessAt cmp l p (parentIdx p) = false) →
      (0 < j → ∀ c, c < l.length → parentIdx c = j →
        lessAt cmp l c (parentIdx j) = false) →
      HeapOrdered cmp (heapUp cmp l j) := by
  intro l j
  induction l, j using heapUp.induct cmp with
  | case1 l =>
      intro hjl hrest hchild
      rw [heapUp]
      rw [if_pos rfl]
      intro p hp hp0
      exact hrest p hp hp0 (by omega)
  | case3 l j hj hlt =>
      intro hjl hrest hchild
      rw [heapUp]
      rw [if_neg hj, if_neg hlt]
      intro p hp hp0
      by_cases hpj : p = j
      · rw [hpj]
        simpa using hlt
      · exact hrest p hp hp0 hpj
  | case2 l j hj hlt ih =>
      intro hjl hrest hchild
      rw [heapUp]
      rw [if_neg hj, if_pos hlt]
      have hj0 : 0 < j := Nat.pos_of_ne_zero hj
      have hpar : parentIdx j < j := parentIdx_lt hj0
      have hil : parentIdx j < l.length := lt_trans hpar hjl
      have hln : (hSwap l (parentIdx j) j).length = l.length :=
        hSwap_length l (parentIdx j) j
      apply ih
      · rw [hln]
        exact hil
      · intro p hp hp0 hpi
        rw [hln] at hp
        rw [lessAt_hSwap_pos hil hjl]
        by_cases hpj : p = j
        · rw [hpj, swapPos_snd, swapPos_fst]
          exact lessAt_asymm Hasym hjl hil hlt
        · rw [swapPos_other hpi hpj]
          by_cases hc1 : parentIdx p = parentIdx j
          · rw [hc1, swapPos_fst]
            have h1 : lessAt cmp l p (parentIdx p) = false :=
              hrest p hp hp0 hpj
            rw [hc1] at h1
            exact lessAt_false_of_false_of_true Hasym Hneg hp hil hjl h1 hlt
          · by_cases hc2 : parentIdx p = j
            · rw [hc2, swapPos_snd]
              exact hchild hj0 p hp hc2
            · rw [swapPos_other hc1 hc2]
              exact hrest p hp hp0 hpj
      · intro hi0 c hc hpc
        rw [hln] at hc
        rw [lessAt_hSwap_pos hil hjl]
        have hgrand : parentIdx (parentIdx j) < parentIdx j := parentIdx_lt hi0
        have hσg : swapPos (parentIdx j) j (parentIdx (parentIdx j)) =
            parentIdx (parentIdx j) := swapPos_other (by omega) (by omega)
        rw [hσg]
        by_cases hcj : c = j
        · rw [hcj, swapPos_snd]
          exact hrest (parentIdx j) hil hi0 (by omega)
        · have hcgt : parentIdx j < c := by
            unfold parentIdx at hpc hi0 ⊢
            omega
          have hc0 : 0 < c := by
            omega
          rw [swapPos_other (by omega) hcj]
          have h1 : lessAt cmp l c (parentIdx c) = false :=
            hrest c hc hc0 hcj
          rw [hpc] at h1
          have h2 : lessAt cmp l (parentIdx j) (parentIdx (parentIdx j)) = false :=
            hrest (parentIdx j) hil hi0 (by omega)
          exact lessAt_negtrans Hneg (lt_trans hgrand hil) hil hc h2 h1

end GoKit

namespace GoKit

/-! ## Sift-down re-establishes the heap property -/

variable {K V : Type} {cmp : K → K → Bool}

theorem heapDown_ordered (Hasym : CmpAsymm cmp) (Hneg : CmpNegTrans cmp) :
    ∀ (l : List (HEntry K V)) (i n : Nat), n ≤ l.length →
      (∀ p, p < n → 0 < p → parentIdx p ≠ i →
        lessAt cmp l p (parentIdx p) = false) →
      (0 < i → ∀ c, c < n → parentIdx c = i →
        lessAt cmp l c (parentIdx i) = false) →
      HeapOrderedUpTo cmp (heapDown cmp l i n).1 n := by
  intro l i n
  induction l, i, n using heapDown.induct cmp with
  | case3 l i n hn =>
      intro hnl hrest hchild
      rw [heapDown]
      rw [dif_neg hn]
      show HeapOrderedUpTo cmp l n
      intro p hp hp0
      apply hrest p hp hp0
      intro hpar
      unfold parentIdx at hpar
      omega
  | case2 l i n hn hlt =>
      intro hnl hrest hchild
      rw [heapDown]
      rw [dif_pos hn, if_neg hlt]
      show HeapOrderedUpTo cmp l n
      intro p hp hp0
      by_cases hpar : parentIdx p = i
      · by_cases hpj : p = minChild cmp l i n
        · rw [hpj, parentIdx_minChild cmp l hn]
          simpa using hlt
        · have h1 : lessAt cmp l p (minChild cmp l i n) = false :=
            minChild_other Hasym hn hnl hp hpar hp0 hpj
          have h2 : lessAt cmp l (minChild cmp l i n) i = false := by
            simpa using hlt
          rw [hpar]
          have hmb : minChild cmp l i n < l.length := by
            have := @minChild_lt K V cmp l _ _ hn
            omega
          refine lessAt_negtrans Hneg (by omega) hmb (by omega) h2 h1
      · exact hrest p hp hp0 hpar
  | case1 l i n hn hlt ih =>
      intro hnl hrest hchild
      rw [heapDown]
      rw [dif_pos hn, if_pos hlt]
      have hjlt : minChild cmp l i n < n := minChild_lt hn
      have hjgt : i < minChild cmp l i n := lt_minChild cmp l i n
      have hil : i < l.length := by
        omega
      have hjl : minChild cmp l i n < l.length := by
        omega
      have hln : (hSwap l i (minChild cmp l i n)).length = l.length :=
        hSwap_length l i (minChild cmp l i n)
      have hpj : parentIdx (minChild cmp l i n) = i := parentIdx_minChild cmp l hn
      apply ih
      · rw [hln]
        exact hnl
      · intro p hp hp0 hppar
        rw [lessAt_hSwap_pos hil hjl]
        by_cases hpi : p = i
        · have hi0 : 0 < i := by
            rw [hpi] at hp0
            exact hp0
          have hparil : parentIdx i < i := parentIdx_lt hi0
          rw [hpi, swapPos_fst, swapPos_other (by omega) (by omega)]
          exact hchild hi0 (minChild cmp l i n) hjlt hpj
        · by_cases hpjj : p = minChild cmp l i n
          · rw [hpjj, swapPos_snd, hpj, swapPos_fst]
            exact lessAt_asymm Hasym hjl hil hlt
          · rw [swapPos_other hpi hpjj]
            by_cases hc1 : parentIdx p = i
            · rw [hc1, swapPos_fst]
              exact minChild_other Hasym hn hnl hp hc1 hp0 hpjj
            · rw [swapPos_other hc1 hppar]
              exact hrest p hp hp0 hc1
      · intro hj0 c hc hpc
        rw [lessAt_hSwap_pos hil hjl]
        rw [hpj, swapPos_fst]
        have hcgt : minChild cmp l i n < c := by
          unfold parentIdx at hpc
          omega
        have hc0 : 0 < c := by
          omega
        rw [swapPos_other (by omega) (by omega)]
        have h1 : lessAt cmp l c (parentIdx c) = false := by
          apply hrest c hc hc0
          rw [hpc]
          omega
        rw [hpc] at h1
        exact h1

end GoKit

namespace GoKit

/-! ## Push and pop preserve the heap property; the root is minimal -/

variable {K V : Type} {cmp : K → K → Bool}

theorem keyAt_append_left {l l2 : List (HEntry K V)} {p : Nat}
    (hp : p < l.length) : keyAt (l ++ l2) p = keyAt l p := by
  unfold keyAt
  rw [List.getElem?_append, if_pos hp]

theorem lessAt_append_left {l l2 : List (HEntry K V)} {p q : Nat}
    (hp : p < l.length) (hq : q < l.length) :
    lessAt cmp (l ++ l2) p q = lessAt cmp l p q := by
  unfold lessAt
  rw [keyAt_append_left hp, keyAt_append_left hq]

theorem heapPushGo_ordered (Hasym : CmpAsymm cmp) (Hneg : CmpNegTrans cmp)
    {l : List (HEntry K V)} (hord : HeapOrdered cmp l) (e : HEntry K V) :
    HeapOrdered cmp (heapPushGo cmp l e) := by
  unfold heapPushGo
  apply heapUp_ordered Hasym Hneg
  · simp
  · intro p hp hp0 hpj
    simp only [List.length_append, List.length_cons, List.length_nil] at hp
    have hpl : p < l.length := by
      omega
    have hppl : parentIdx p < l.length := lt_trans (parentIdx_lt hp0) hpl
    rw [lessAt_append_left hpl hppl]
    exact hord p hpl hp0
  · intro hj0 c hc hpc
    simp only [List.length_append, List.length_cons, List.length_nil] at hc
    unfold parentIdx at hpc
    omega

theorem heapOrdered_min (Hasym : CmpAsymm cmp) (Hneg : CmpNegTrans cmp)
    {l : List (HEntry K V)} (hord : HeapOrdered cmp l) :
    ∀ p, p < l.length → lessAt cmp l p 0 = false := by
  intro p
  induction p using Nat.strong_induction_on with
  | _ p ih =>
      intro hp
      by_cases hp0 : 0 < p
      · have h1 : lessAt cmp l p (parentIdx p) = false := hord p hp hp0
        have hpar := parentIdx_lt hp0
        have h2 : lessAt cmp l (parentIdx p) 0 = false :=
          ih (parentIdx p) hpar (lt_trans hpar hp)
        exact lessAt_negtrans Hneg (by omega) (lt_trans hpar hp) hp h2 h1
      · have hp0e : p = 0 := by
          omega
        rw [hp0e]
        obtain ⟨r, hr⟩ := keyAt_isSome_of_lt (show 0 < l.length by omega)
        rw [lessAt_key hr hr]
        exact cmp_irrefl Hasym r

theorem heapOrdered_min_mem (Hasym : CmpAsymm cmp) (Hneg : CmpNegTrans cmp)
    {l : List (HEntry K V)} (hord : HeapOrdered cmp l) {r : K}
    (hr : keyAt l 0 = some r) : ∀ x ∈ l.map (·.key), cmp x r = false := by
  intro x hx
  obtain ⟨p, hp⟩ := (mem_keys_iff_keyAt l x).1 hx
  have hpl := keyAt_lt_of_some hp
  have hmin := heapOrdered_min Hasym Hneg hord p hpl
  rw [lessAt_key hp hr] at hmin
  exact hmin

theorem keyAt_dropLast {l : List (HEntry K V)} {p : Nat}
    (hp : p < l.length - 1) : keyAt l.dropLast p = keyAt l p := by
  unfold keyAt
  rw [List.getElem?_dropLast, if_pos hp]

theorem heapPopGo_eq {l : List (HEntry K V)} (hne : l ≠ []) :
    ∃ item,
      ((heapDown cmp (hSwap l 0 (l.length - 1)) 0 (l.length - 1)).1).getLast? =
        some item ∧
      heapPopGo cmp l =
        (some { item with index := -1 },
          ((heapDown cmp (hSwap l 0 (l.length - 1)) 0 (l.length - 1)).1).dropLast) := by
  have hlen2 :
      ((heapDown cmp (hSwap l 0 (l.length - 1)) 0 (l.length - 1)).1).length =
        l.length := by
    rw [heapDown_length, hSwap_length]
  have hpos : 0 < l.length := List.length_pos.2 hne
  obtain ⟨item, hitem⟩ :
      ∃ item,
        ((heapDown cmp (hSwap l 0 (l.length - 1)) 0 (l.length - 1)).1).getLast? =
          some item := by
    rw [List.getLast?_eq_getElem?, hlen2]
    rw [List.getElem?_eq_getElem (by omega)]
    exact ⟨_, rfl⟩
  refine ⟨item, hitem, ?_⟩
  rcases l with _ | ⟨e, rest⟩
  · exact absurd rfl hne
  · show helperPop _ = _
    unfold helperPop
    rw [hitem]

theorem heapPopGo_length {l : List (HEntry K V)} (hne : l ≠ []) :
    (heapPopGo cmp l).2.length = l.length - 1 := by
  obtain ⟨item, hitem, heq⟩ := @heapPopGo_eq K V cmp l hne
  rw [heq]
  simp only [List.length_dropLast]
  rw [heapDown_length, hSwap_length]

theorem heapPopGo_key {l : List (HEntry K V)} (hne : l ≠ []) :
    (heapPopGo cmp l).1.map (·.key) = keyAt l 0 := by
  obtain ⟨item, hitem, heq⟩ := @heapPopGo_eq K V cmp l hne
  have hpos : 0 < l.length := List.length_pos.2 hne
  have hlen2 :
      ((heapDown cmp (hSwap l 0 (l.length - 1)) 0 (l.length - 1)).1).length =
        l.length := by
    rw [heapDown_length, hSwap_length]
  rw [heq]
  have hkey :
      keyAt ((heapDown cmp (hSwap l 0 (l.length - 1)) 0 (l.length - 1)).1)
        (l.length - 1) = some item.key := by
    unfold keyAt
    rw [List.getLast?_eq_getElem?] at hitem
    rw [hlen2] at hitem
    rw [hitem]
    rfl
  have hdown :
      keyAt ((heapDown cmp (hSwap l 0 (l.length - 1)) 0 (l.length - 1)).1)
        (l.length - 1) = keyAt (hSwap l 0 (l.length - 1)) (l.length - 1) :=
    heapDown_keyAt_ge cmp _ 0 (l.length - 1) (by rw [hSwap_length]; omega)
      (l.length - 1) (le_refl _)
  have hswap :
      keyAt (hSwap l 0 (l.length - 1)) (l.length - 1) = keyAt l 0 := by
    rw [keyAt_hSwap hpos (by omega)]
    by_cases h0 : l.length - 1 = 0
    · simp [h0]
    · simp [h0]
  rw [hkey] at hdown
  rw [hswap] at hdown
  exact hdown

theorem heapPopGo_ordered (Hasym : CmpAsymm cmp) (Hneg : CmpNegTrans cmp)
    {l : List (HEntry K V)} (hne : l ≠ []) (hord : HeapOrdered cmp l) :
    HeapOrdered cmp (heapPopGo cmp l).2 := by
  obtain ⟨item, hitem, heq⟩ := @heapPopGo_eq K V cmp l hne
  have hpos : 0 < l.length := List.length_pos.2 hne
  have hlen2 :
      ((heapDown cmp (hSwap l 0 (l.length - 1)) 0 (l.length - 1)).1).length =
        l.length := by
    rw [heapDown_length, hSwap_length]
  have hupto :
      HeapOrderedUpTo cmp
        ((heapDown cmp (hSwap l 0 (l.length - 1)) 0 (l.length - 1)).1)
        (l.length - 1) := by
    apply heapDown_ordered Hasym Hneg
    · rw [hSwap_length]
      omega
    · intro p hp hp0 hpar
      rw [lessAt_hSwap_pos hpos (by omega)]
      have hparp := parentIdx_lt hp0
      rw [swapPos_other (by omega) (by omega),
        swapPos_other (by omega) (by omega)]
      exact hord p (by omega) hp0
    · intro h0
      exact absurd h0 (by omega)
  rw [heq]
  intro p hp hp0
  simp only [List.length_dropLast, hlen2] at hp
  have hparp := parentIdx_lt hp0
  unfold lessAt
  rw [keyAt_dropLast (by omega), keyAt_dropLast (by omega)]
  exact hupto p hp hp0

theorem heapPopGo_mem {l : List (HEntry K V)} (hne : l ≠ []) (x : K)
    (hx : x ∈ (heapPopGo cmp l).2.map (·.key)) : x ∈ l.map (·.key) := by
  obtain ⟨item, hitem, heq⟩ := @heapPopGo_eq K V cmp l hne
  rw [heq] at hx
  obtain ⟨p, hp⟩ := (mem_keys_iff_keyAt _ x).1 hx
  have hpl := keyAt_lt_of_some hp
  simp only [List.length_dropLast] at hpl
  rw [keyAt_dropLast hpl] at hp
  have hmem :
      x ∈ ((heapDown cmp (hSwap l 0 (l.length - 1)) 0 (l.length - 1)).1).map
        (·.key) := (mem_keys_iff_keyAt _ x).2 ⟨p, hp⟩
  rw [keys_mem_heapDown, keys_mem_hSwap] at hmem
  exact hmem

end GoKit

namespace GoKit

/-! ## TryPop-level consequences, pop order, and reachable states -/

variable {K V : Type} {cmp : K → K → Bool}

theorem pqTryPop_empty : pqTryPop cmp ([] : List (HEntry K Unit)) = (none, []) :=
  rfl

theorem pqTryPop_eq_pop {l : List (HEntry K Unit)} (hne : l ≠ []) :
    pqTryPop cmp l = ((heapPopGo cmp l).1.map (·.key), (heapPopGo cmp l).2) := by
  unfold pqTryPop
  rw [if_neg (by have := List.length_pos.2 hne; omega)]

theorem pqTryPop_key {l : List (HEntry K Unit)} (hne : l ≠ []) :
    (pqTryPop cmp l).1 = keyAt l 0 := by
  rw [pqTryPop_eq_pop hne]
  exact heapPopGo_key hne

theorem pqTryPop_snd {l : List (HEntry K Unit)} (hne : l ≠ []) :
    (pqTryPop cmp l).2 = (heapPopGo cmp l).2 := by
  rw [pqTryPop_eq_pop hne]

theorem pqTryPop_length_lt {l : List (HEntry K Unit)} (hne : l ≠ []) :
    (pqTryPop cmp l).2.length < l.length := by
  rw [pqTryPop_snd hne, heapPopGo_length hne]
  have := List.length_pos.2 hne
  omega

theorem pqTryPop_ordered (Hasym : CmpAsymm cmp) (Hneg : CmpNegTrans cmp)
    {l : List (HEntry K Unit)} (hord : HeapOrdered cmp l) :
    HeapOrdered cmp (pqTryPop cmp l).2 := by
  by_cases hne : l = []
  · rw [hne, pqTryPop_empty]
    intro p hp hp0
    simp at hp
  · rw [pqTryPop_snd hne]
    exact heapPopGo_ordered Hasym Hneg hne hord

theorem pqTryPop_mem {l : List (HEntry K Unit)} (x : K)
    (hx : x ∈ (pqTryPop cmp l).2.map (·.key)) : x ∈ l.map (·.key) := by
  by_cases hne : l = []
  · rw [hne, pqTryPop_empty] at hx
    simp at hx
  · rw [pqTryPop_snd hne] at hx
    exact heapPopGo_mem hne x hx

theorem popRepeat_subset (cmp : K → K → Bool) :
    ∀ (fuel : Nat) (l : List (HEntry K Unit)) (x : K),
      x ∈ popRepeat cmp fuel l → x ∈ l.map (·.key) := by
  intro fuel l
  induction fuel, l using popRepeat.induct cmp with
  | case1 l =>
      intro x hx
      simp [popRepeat] at hx
  | case2 fuel l k l2 heq ih =>
      intro x hx
      have hne : l ≠ [] := by
        intro hl
        rw [hl, pqTryPop_empty] at heq
        simp at heq
      rw [popRepeat, heq] at hx
      rcases List.mem_cons.1 hx with hk | hrest
      · have hkey : keyAt l 0 = some k := by
          rw [← @pqTryPop_key K cmp l hne, heq]
        rw [hk]
        exact (mem_keys_iff_keyAt l k).2 ⟨0, hkey⟩
      · have hmem := ih x hrest
        have hl2 : l2 = (pqTryPop cmp l).2 := by
          rw [heq]
        rw [hl2] at hmem
        exact pqTryPop_mem x hmem
  | case3 fuel l snd heq =>
      intro x hx
      rw [popRepeat, heq] at hx
      simp at hx

theorem popRepeat_pairwise (Hasym : CmpAsymm cmp) (Hneg : CmpNegTrans cmp) :
    ∀ (fuel : Nat) (l : List (HEntry K Unit)), HeapOrdered cmp l →
      List.Pairwise (fun a b => cmp b a = false) (popRepeat cmp fuel l) := by
  intro fuel l
  induction fuel, l using popRepeat.induct cmp with
  | case1 l =>
      intro hord
      rw [popRepeat]
      exact List.Pairwise.nil
  | case2 fuel l k l2 heq ih =>
      intro hord
      have hne : l ≠ [] := by
        intro hl
        rw [hl, pqTryPop_empty] at heq
        simp at heq
      rw [popRepeat, heq]
      have hl2 : l2 = (pqTryPop cmp l).2 := by
        rw [heq]
      have hkey : keyAt l 0 = some k := by
        rw [← @pqTryPop_key K cmp l hne, heq]
      apply List.Pairwise.cons
      · intro b hb
        have hbmem := popRepeat_subset cmp fuel l2 b hb
        rw [hl2] at hbmem
        have hbl := pqTryPop_mem b hbmem
        exact heapOrdered_min_mem Hasym Hneg hord hkey b hbl
      · apply ih
        rw [hl2]
        exact pqTryPop_ordered Hasym Hneg hord
  | case3 fuel l snd heq =>
      intro hord
      rw [popRepeat, heq]
      exact List.Pairwise.nil

theorem heapOrdered_nil : HeapOrdered cmp ([] : List (HEntry K Unit)) := by
  intro p hp hp0
  simp at hp

theorem pqAdd_ordered (Hasym : CmpAsymm cmp) (Hneg : CmpNegTrans cmp)
    {l : List (HEntry K Unit)} (hord : HeapOrdered cmp l) (k : K) :
    HeapOrdered cmp (pqAdd cmp l k) :=
  heapPushGo_ordered Hasym Hneg hord _

theorem runQ_ordered (Hasym : CmpAsymm cmp) (Hneg : CmpNegTrans cmp)
    (ops : List (QOp K)) : HeapOrdered cmp (runQ cmp ops) := by
  unfold runQ
  suffices h : ∀ (s : List (HEntry K Unit)), HeapOrdered cmp s →
      HeapOrdered cmp
        (ops.foldl
          (fun s op =>
            match op with
            | .add k => pqAdd cmp s k
            | .pop => (pqTryPop cmp s).2)
          s) by
    exact h [] heapOrdered_nil
  induction ops with
  | nil =>
      intro s hs
      exact hs
  | cons op rest ih =>
      intro s hs
      rw [List.foldl_cons]
      apply ih
      rcases op with k | _
      · exact pqAdd_ordered Hasym Hneg hs k
      · exact pqTryPop_ordered Hasym Hneg hs

end GoKit

namespace GoKit

/-! ## Claim theorems -/

/-- C1.  The claimed heap invariant fails on the code: on a `PriorityMap`,
after `Put`s of `(1,10) … (6,60)` (ascending priorities, so pushed entries
keep the zero-value `index = 0`) followed by the decrease-key
`Put ((6,5), 7)`, `heap.Fix` runs at the stale index `0` and the backing
array ends with the key `(6,5)` at position `5` strictly less (priority
`5 < 30`) than its parent `(3,30)`: the binary-heap property is violated.
The cause is `priorityHelper.Push` never initialising the pushed entry's
`index` (the k8s code this was adapted from sets `item.index = n`). -/
theorem c1_heap_property_violated_by_stale_index :
    phHeapOrderedB prioCmp decreaseKeyRun.helper = false ∧
    phKeyAt decreaseKeyRun.helper 5 = some (6, 5) ∧
    phKeyAt decreaseKeyRun.helper (parentIdx 5) = some (3, 30) ∧
    prioCmp (6, 5) (3, 30) = true := by
  refine ⟨?_, ?_, ?_, rfl⟩ <;>
    simp [decreaseKeyRun, scenarioPut, pmPut, pmEmpty, mapGet, goIndex,
      phFixGo, phPushGo, phUp, phDown, phSwap, phLess, phKeyAt, phMinChild,
      parentIdx, storeSetIndex, mapPut, bucketPut, goIndexSet, phHeapOrderedB,
      prioCmp, idHasher, idEqualer, List.range, List.range.loop]

/-- C2.  The claimed index invariant fails on the code: on an ascending
`PriorityQueue`, after `Add 1; Add 2` the entry stored at position `1` still
carries the zero-value `index = 0` (no `Swap` ever touched it), so
`heap.entries[entry.index]` is the *other* entry.  (`priorityHelper.Pop`
does set the popped entry's index to `-1`, but the main invariant is
broken.) -/
theorem c2_index_invariant_violated_after_add :
    pqIndexInvB (pqAdd natAscComparator (pqAdd natAscComparator [] 1) 2) = false ∧
    (pqAdd natAscComparator (pqAdd natAscComparator [] 1) 2)[1]? =
      some { key := 2, value := (), index := 0 } := by
  constructor <;>
    simp [pqAdd, heapPushGo, heapUp, lessAt, keyAt, hSwap, parentIdx,
      natAscComparator, pqIndexInvB]

/-- C3.  Decrease-key through `Put` on an existing key fails on the code: in
`decreaseKeyRun` the `Put ((6,5), 7)` does mutate in place (no second entry,
`Len` still `6`, identity `6` still present with the new value `7`) but the
`heap.Fix` at the stale index `0` does not restore heap order, and the next
`TryPop` returns `(1,10)` (priority `10`) instead of the updated minimum
`(6,5)` (priority `5`): pop order does not reflect the new priority. -/
theorem c3_decrease_key_pop_order_violated :
    pmLen decreaseKeyRun = 6 ∧
    pmGet idHasher idEqualer decreaseKeyRun (6, 0) = some 7 ∧
    (pmTryPop prioCmp idHasher idEqualer decreaseKeyRun).1 = some ((1, 10), 0) ∧
    phHeapOrderedB prioCmp decreaseKeyRun.helper = false := by
  refine ⟨?_, ?_, ?_, ?_⟩ <;>
    simp [decreaseKeyRun, scenarioPut, pmPut, pmEmpty, mapGet, goIndex,
      phFixGo, phPushGo, phUp, phDown, phSwap, phLess, phKeyAt, phMinChild,
      parentIdx, storeSetIndex, mapPut, bucketPut, goIndexSet, phHeapOrderedB,
      prioCmp, idHasher, idEqualer, List.range, List.range.loop, pmLen, pmGet,
      pmTryPop, phPopGo, phHelperPop]

/-- C4.  The pending-set equality fails on the code: for two *distinct*
`waitFor` allocations with the same `readyAt`, the installed equaler returns
`true` (the claim demands `not equal`) — the comparison uses `!=` on the
pointers, so distinct identities with equal ready instants are reported
equal.  Both entries do remain in the pending collection after both `Add`s
(its `Add` pushes unconditionally). -/
theorem c4_equaler_reports_distinct_same_ready_entries_equal :
    waitForEqualer { id := 0, readyAt := 5 } { id := 1, readyAt := 5 } = true ∧
    pqLen
      (pqAdd waitForComparator
        (pqAdd waitForComparator [] { id := 0, readyAt := 5 })
        { id := 1, readyAt := 5 }) = 2 := by
  constructor <;>
    simp [waitForEqualer, pqAdd, heapPushGo, heapUp, lessAt, keyAt, hSwap,
      parentIdx, waitForComparator, pqLen]

/-- C5.  The worker-continues claim fails on the code: when the loop function
panics and the supplied handler returns normally, the handler does receive
the panic value, but the recovered panic leaves the named result `goNext` at
its zero value `false`, so the worker goroutine stops iterating — while with
no handler, or with a handler that itself panics, the worker does continue
(`goNext = true`). -/
theorem c5_worker_stops_after_handled_panic :
    worker false (.panics 7) (some (fun _ => none)) = (false, [7]) ∧
    worker false (.panics 7) (some (fun v => some v)) = (true, [7]) ∧
    worker false (.panics 7) none = (true, []) := by
  constructor
  · rfl
  · constructor <;> rfl

/-- C6 counterexample.  The claim says `Pop()` on an empty collection fails
the way `Peek()` does; but the `Pop` of the source (the body of today's
`TryPop`) has no panicking operation at all — on the empty queue it returns
the `(zero, false)` indicator, so its panic-monad embedding is `ok`, not an
error. -/
theorem c6_pop_on_empty_returns_indicator_not_panic :
    isPanic (pqPopE natAscComparator ([] : List (HEntry Nat Unit))) = false ∧
    pqPop natAscComparator ([] : List (HEntry Nat Unit)) = (none, []) := by
  decide

/-- C6 amended.  On every empty priority collection, `Peek()` panics with the
empty-collection message while `TryPeek()` returns the not-found indicator;
`TryPop()` (and the identically-bodied legacy `Pop()`) likewise return the
not-found indicator rather than failing — no panicking pop variant exists.
Stated for the bare queue and for the map (the set delegates to the map). -/
theorem c6_amended_peek_panics_pops_indicate (K V C : Type) [DecidableEq C]
    (cmp : K → K → Bool) (cmpP : K → K → Bool) (hasher : K → C)
    (eqr : K → K → Bool) :
    pqPeekE ([] : List (HEntry K Unit)) =
      .error (.stringPanic "Peek from an empty PriorityCollection.") ∧
    pqTryPeek ([] : List (HEntry K Unit)) = none ∧
    pqTryPop cmp ([] : List (HEntry K Unit)) = (none, []) ∧
    pqPop cmp ([] : List (HEntry K Unit)) = (none, []) ∧
    pmPeekE (pmEmpty K V C) =
      .error (.stringPanic "Peek from an empty PriorityCollection.") ∧
    pmTryPeek (pmEmpty K V C) = none ∧
    pmTryPop cmpP hasher eqr (pmEmpty K V C) = (none, pmEmpty K V C) := by
  refine ⟨rfl, rfl, rfl, rfl, rfl, rfl, rfl⟩

/-- C7.  After `ShutDownFast` (which closes `stopCh`) or `ShutDownWithDrain`
(which closes `waitingForAddCh`; the subsequent send's runtime panic is
translated by the deferred recover), every `ExcuteAfter` call panics with the
dedicated `runtimeError "Executor has been shutted down!"` — an error value
distinguishable by type and message from the other panics of the package.
Since no operation ever reopens a closed channel, any state with one of the
two flags set behaves the same. -/
theorem c7_excute_after_shutdown_fails_with_shutdown_error (s : ExecState)
    (w : WaitFor) (h : s.stopClosed = true ∨ s.addChClosed = true) :
    excuteAfter s w = .error (.runtimeError "Executor has been shutted down!") ∧
    (shutDownFast s).stopClosed = true ∧
    (shutDownWithDrain s).addChClosed = true := by
  refine ⟨?_, rfl, rfl⟩
  unfold excuteAfter excuteAfterRaw
  rcases h with h | h
  · simp [h]
  · rcases hs : s.stopClosed <;> simp [hs, h]

theorem c7_witness :
    ((shutDownFast newExecState).stopClosed = true ∨
      (shutDownFast newExecState).addChClosed = true) ∧
    excuteAfter (shutDownFast newExecState) { id := 0, readyAt := 3 } =
      .error (.runtimeError "Executor has been shutted down!") :=
  ⟨Or.inl rfl,
    (c7_excute_after_shutdown_fails_with_shutdown_error
      (shutDownFast newExecState) { id := 0, readyAt := 3 } (Or.inl rfl)).1⟩

/-- C9.  The first `Close()` of a `DelayingChannel` succeeds and marks the
channel closed (after shutting the executor's ingestion path down); any
`Close()` of an already-closed channel panics instead of silently
succeeding — and since the panic happens before any mutation, every later
call keeps failing. -/
theorem c9_close_once_then_fails {T : Type} (s t : DChanState T)
    (hs : s.isClosed = false) (ht : t.isClosed = true) :
    (∃ s2, dcClose s = .ok s2 ∧ s2.isClosed = true) ∧
    isPanic (dcClose t) = true := by
  constructor
  · refine ⟨{ s with executor := shutDownWithDrain s.executor, isClosed := true },
      ?_, rfl⟩
    unfold dcClose
    simp [hs]
  · unfold dcClose
    simp [ht, isPanic]

theorem c9_witness :
    (∃ s2,
        dcClose { executor := newExecState, ch := ([] : List Nat),
                  isClosed := false, remainingTasks := 0 } = .ok s2 ∧
        s2.isClosed = true) ∧
    isPanic
      (dcClose { executor := newExecState, ch := ([] : List Nat),
                 isClosed := true, remainingTasks := 0 }) = true :=
  c9_close_once_then_fails _ _ rfl rfl

/-- C10.  The equaler the executor installs is irreflexive: it demands the
two pointers *differ*, so an entry never equals itself; consequently the
linear scans of `Has` and `RemoveFirst` can never match the very entry object
given to them — on a pending collection containing exactly that entry they
return `false`, and any entry a scan does match has a different identity. -/
theorem c10_equaler_irreflexive_never_matches_self (w : WaitFor)
    (s : List (HEntry WaitFor Unit)) :
    waitForEqualer w w = false ∧
    pqHas waitForEqualer (pqAdd waitForComparator [] w) w = false ∧
    (pqRemoveFirst waitForComparator waitForEqualer
      (pqAdd waitForComparator [] w) w).1 = false ∧
    (∀ i (hi : i < s.length),
      waitForEqualer w ((s.get ⟨i, hi⟩).key) = true →
        ((s.get ⟨i, hi⟩).key).id ≠ w.id) := by
  have hirr : waitForEqualer w w = false := by
    unfold waitForEqualer
    simp
  refine ⟨hirr, ?_, ?_, ?_⟩
  · simp [pqAdd, heapPushGo, heapUp, pqHas, hirr]
  · simp [pqAdd, heapPushGo, heapUp, pqRemoveFirst, List.findIdx?, hirr]
  · intro i hi hmatch hid
    unfold waitForEqualer at hmatch
    simp at hmatch
    exact hmatch.2 hid.symm

theorem c10_witness :
    ((⟨{ id := 1, readyAt := 5 }, (), 0⟩ : HEntry WaitFor Unit).key).id ≠
      ({ id := 0, readyAt := 5 } : WaitFor).id :=
  (c10_equaler_irreflexive_never_matches_self { id := 0, readyAt := 5 }
      [⟨{ id := 1, readyAt := 5 }, (), 0⟩]).2.2.2 0 (by decide) (by decide)

/-- C8.  Concrete scenario 5 holds: on an ascending priority queue, after
`Add 3; Add 1; Add 2` three successive pops yield `1`, `2`, `3`, each
reporting the element as present; and in general, for every comparator
satisfying the strict-order contract (asymmetry and transitivity of the
complement) and every `Add`/`TryPop` sequence from the empty queue, repeated
popping returns the stored keys in non-decreasing comparator order: the
comparator never reports a later key strictly less than an earlier one. -/
theorem c8_pop_yields_sorted_order {K : Type} (cmpG : K → K → Bool)
    (Hasym : CmpAsymm cmpG) (Hneg : CmpNegTrans cmpG) (ops : List (QOp K)) :
    popAllQ natAscComparator
        (runQ natAscComparator [QOp.add 3, QOp.add 1, QOp.add 2]) = [1, 2, 3] ∧
    List.Pairwise (fun a b => cmpG b a = false)
      (popAllQ cmpG (runQ cmpG ops)) := by
  constructor
  · simp [popAllQ, runQ, popRepeat, pqAdd, pqTryPop, heapPushGo, heapPopGo,
      helperPop, heapUp, heapDown, minChild, hSwap, lessAt, keyAt, parentIdx,
      natAscComparator, List.foldl]
  · exact popRepeat_pairwise Hasym Hneg _ _ (runQ_ordered Hasym Hneg ops)

theorem c8_witness :
    popAllQ natAscComparator
        (runQ natAscComparator [QOp.add 3, QOp.add 1, QOp.add 2]) = [1, 2, 3] ∧
    List.Pairwise (fun a b => natAscComparator b a = false)
      (popAllQ natAscComparator
        (runQ natAscComparator [QOp.add 3, QOp.add 1, QOp.add 2])) :=
  c8_pop_yields_sorted_order natAscComparator
    (fun a b h => by
      simp [natAscComparator] at *
      omega)
    (fun a b c h1 h2 => by
      simp [natAscComparator] at *
      omega)
    [QOp.add 3, QOp.add 1, QOp.add 2]

end GoKit
